import Mathlib

set_option maxRecDepth 30000

/-!
Verification of the r53 Route 53 synchronisation tool (`src/r53/r53.py`).

The tool manipulates lxml element trees.  We embed an XML element as a
tree carrying its tag (in Clark notation, `\x7bnamespace\x7dlocal`, the way
lxml exposes tags), its optional text content and its list of child
elements.  Attributes never influence the behaviour of the functions under
study (the only attribute in play is the `xmlns` declaration, which lxml
folds into the Clark tag), and all documents handled by the tool have had
insignificant whitespace stripped (the parser uses `remove_blank_text`,
and `main` runs `XSLT_STRIPSPACE` over both inputs before diffing), so
tail text is always empty and is not modelled.

`lxml.etree.tostring` is modelled by `Xml.serialize`, a deterministic
renderer of the tag/text/children structure.  On the whitespace-stripped
documents the tool compares, equality of `tostring` outputs coincides with
equality of this rendering, which is all the code ever uses the
serialisation for (membership tests in sets of serialised entries).
-/

inductive Xml : Type where
  | elem (tag : String) (text : Option String) (children : List Xml)

mutual
def Xml.beq : Xml → Xml → Bool
  | .elem t tx cs, .elem t' tx' cs' => t == t' && tx == tx' && Xml.beqList cs cs'
termination_by structural x => x

def Xml.beqList : List Xml → List Xml → Bool
  | [], [] => true
  | x :: xs, y :: ys => Xml.beq x y && Xml.beqList xs ys
  | _, _ => false
termination_by structural xs => xs
end

mutual
theorem Xml.beq_iff : ∀ x y : Xml, Xml.beq x y = true ↔ x = y
  | .elem t tx cs, .elem t' tx' cs' => by
    simp only [Xml.beq, Bool.and_eq_true, beq_iff_eq, Xml.beqList_iff cs cs', Xml.elem.injEq]
    tauto

theorem Xml.beqList_iff : ∀ xs ys : List Xml, Xml.beqList xs ys = true ↔ xs = ys
  | [], [] => by simp [Xml.beqList]
  | [], _ :: _ => by simp [Xml.beqList]
  | _ :: _, [] => by simp [Xml.beqList]
  | x :: xs, y :: ys => by
    simp only [Xml.beqList, Bool.and_eq_true, Xml.beq_iff x y, Xml.beqList_iff xs ys,
      List.cons.injEq]
end

instance : DecidableEq Xml := fun a b => decidable_of_iff _ (Xml.beq_iff a b)

def Xml.tag : Xml → String
  | .elem t _ _ => t

def Xml.text : Xml → Option String
  | .elem _ tx _ => tx

def Xml.children : Xml → List Xml
  | .elem _ _ cs => cs

/-- `R53_API_VERSION = '2013-04-01'` (r53.py line 12). -/
def R53_API_VERSION : String := "2013-04-01"

/-- `R53_XMLNS = 'https://route53.amazonaws.com/doc/%s/' % R53_API_VERSION`. -/
def R53_XMLNS : String := "https://route53.amazonaws.com/doc/" ++ R53_API_VERSION ++ "/"

/-- Clark notation for a tag in the Route 53 namespace, `'\x7b%s\x7d%s' % (R53_XMLNS, local)`,
exactly the strings the Python code builds for tag comparisons. -/
def clark (loc : String) : String := "\x7b" ++ R53_XMLNS ++ "\x7d" ++ loc

def rrsetsTag : String := clark "ResourceRecordSets"
def rrsetTag : String := clark "ResourceRecordSet"
def nameTag : String := clark "Name"
def typeTag : String := clark "Type"
def ttlTag : String := clark "TTL"
def rrsTag : String := clark "ResourceRecords"
def rrTag : String := clark "ResourceRecord"
def valueTag : String := clark "Value"
def changeTag : String := clark "Change"
def actionTag : String := clark "Action"
def commentTag : String := clark "Comment"
def changesTag : String := clark "Changes"
def changeBatchTag : String := clark "ChangeBatch"
def requestTag : String := clark "ChangeResourceRecordSetsRequest"
def isTruncatedTag : String := clark "IsTruncated"
def nextNameTag : String := clark "NextRecordName"
def nextTypeTag : String := clark "NextRecordType"
def nextIdentifierTag : String := clark "NextRecordIdentifier"

/-- Python exceptions that the embedded functions can raise. -/
inductive PyErr : Type where
  /-- `InvalidArgumentException` raised by `generate_changeset`. -/
  | invalidArgument
  /-- `AttributeError`, e.g. `None.text` or `None.startswith`. -/
  | attributeError
  /-- `IndexError`, e.g. `x[0]` on a childless element. -/
  | indexError
  /-- `TypeError`, e.g. `len(None)`. -/
  | typeError
  /-- Not a Python error: the fuel bounding the unbounded `while` loop of
  `fetch_config` ran out. -/
  | outOfFuel
deriving DecidableEq

instance {ε α : Type} [DecidableEq ε] [DecidableEq α] : DecidableEq (Except ε α) := fun x y =>
  match x, y with
  | .ok a, .ok b =>
    if h : a = b then .isTrue (by rw [h]) else .isFalse (by simp [h])
  | .ok _, .error _ => .isFalse (by simp)
  | .error _, .ok _ => .isFalse (by simp)
  | .error e, .error f =>
    if h : e = f then .isTrue (by rw [h]) else .isFalse (by simp [h])

/-- Python's `str.startswith`, a prefix test on the character sequence. -/
def pyStartswith (s pre : String) : Bool := pre.data.isPrefixOf s.data

/-- Python's slice `s[n:]`. -/
def pyDrop (s : String) (n : Nat) : String := String.mk (s.data.drop n)

/-- Python's `'%s' % x` for `x` a string or `None` (py2 renders `None` as `'None'`). -/
def pyFmt : Option String → String
  | some s => s
  | none => "None"

mutual
/-- Deterministic rendering of an element, standing in for
`lxml.etree.tostring` on whitespace-stripped trees (see the module
docstring).  `text = none` and `text = some ""` render alike, exactly
as lxml prints no content for either on the documents in play. -/
def Xml.serialize : Xml → String
  | .elem t tx cs => "<" ++ t ++ ">" ++ tx.getD "" ++ Xml.serializeList cs ++ "</" ++ t ++ ">"
termination_by structural x => x

def Xml.serializeList : List Xml → String
  | [] => ""
  | x :: xs => Xml.serialize x ++ Xml.serializeList xs
termination_by structural xs => xs
end

/-! ## normalize_rrs (r53.py lines 87-112)

`normalize_rrs` walks the children of the given `<ResourceRecordSets>`
element; inside every child tagged `ResourceRecordSet` it (a) rewrites a
`<Name>` whose text starts with the two characters `*.` to the escaped
form `\052.` followed by the rest (the Python `'\\052.%s' % old_text[2:]`;
the subsequent `rrs.text.replace(old_text, new_text)` replaces the whole
text, i.e. assigns `new_text`), and (b) re-orders the children of a
`<ResourceRecords>` element with Python's stable `sorted`, keyed on
`x[0].text`, the text of each record's first child.

Python 2 compares `None` below every string, and compares strings
lexicographically; `sorted` first computes the key of every element (in
list order), raising `IndexError` on a childless record, then performs a
stable sort.  A `<Name>` with no text makes `rrs.text.startswith` raise
`AttributeError`.  Both exceptions propagate out of `normalize_rrs`, so
the embedding returns `Except PyErr`.
-/

/-- Python 2 string comparison: lexicographic on the character sequence
(all strings in play are ASCII, where byte order and `Char` order agree). -/
def pyStrLeB : List Char → List Char → Bool
  | [], _ => true
  | _ :: _, [] => false
  | a :: as, b :: bs =>
    if a < b then true else if b < a then false else pyStrLeB as bs

/-- `a <= b` on Python 2 strings. -/
def pyStrLe (a b : String) : Prop := pyStrLeB a.data b.data = true

instance : DecidableRel pyStrLe := fun a b =>
  inferInstanceAs (Decidable (pyStrLeB a.data b.data = true))

/-- Python 2 ordering on `x[0].text` keys: `None` sorts below every string,
strings compare lexicographically. -/
def textLe : Option String → Option String → Prop
  | none, _ => True
  | some _, none => False
  | some a, some b => pyStrLe a b

instance : DecidableRel textLe := fun a b =>
  match a, b with
  | none, _ => .isTrue trivial
  | some _, none => .isFalse id
  | some a, some b => inferInstanceAs (Decidable (pyStrLe a b))

theorem pyStrLeB_total : ∀ as bs : List Char, pyStrLeB as bs = true ∨ pyStrLeB bs as = true
  | [], _ => .inl rfl
  | _ :: _, [] => .inr rfl
  | a :: as, b :: bs => by
    rcases lt_trichotomy a b with h | h | h
    · exact .inl (by simp [pyStrLeB, h])
    · subst h
      rcases pyStrLeB_total as bs with ih | ih
      · exact .inl (by simp [pyStrLeB, ih])
      · exact .inr (by simp [pyStrLeB, ih])
    · exact .inr (by simp [pyStrLeB, h])

theorem pyStrLeB_trans : ∀ as bs cs : List Char,
    pyStrLeB as bs = true → pyStrLeB bs cs = true → pyStrLeB as cs = true
  | [], _, _, _, _ => rfl
  | _ :: _, [], _, h, _ => by simp [pyStrLeB] at h
  | _ :: _, _ :: _, [], _, h => by simp [pyStrLeB] at h
  | a :: as, b :: bs, c :: cs, h1, h2 => by
    by_cases hab : a < b
    · by_cases hbc : b < c
      · simp [pyStrLeB, lt_trans hab hbc]
      · by_cases hcb : c < b
        · simp only [pyStrLeB, if_pos hbc, if_neg hbc, if_pos hcb] at h2
          cases h2
        · have : b = c := le_antisymm (not_lt.mp hcb) (not_lt.mp hbc)
          simp [pyStrLeB, this ▸ hab]
    · by_cases hba : b < a
      · simp only [pyStrLeB, if_neg hab, if_pos hba] at h1
        cases h1
      · have hab' : a = b := le_antisymm (not_lt.mp hba) (not_lt.mp hab)
        subst hab'
        by_cases hac : a < c
        · simp [pyStrLeB, hac]
        · by_cases hca : c < a
          · simp only [pyStrLeB, if_neg hac, if_pos hca] at h2
            cases h2
          · simp only [pyStrLeB, if_neg hab, if_neg hac, if_neg hca] at h1 h2 ⊢
            exact pyStrLeB_trans as bs cs h1 h2

theorem pyStrLeB_antisymm : ∀ as bs : List Char,
    pyStrLeB as bs = true → pyStrLeB bs as = true → as = bs
  | [], [], _, _ => rfl
  | [], _ :: _, _, h => by simp [pyStrLeB] at h
  | _ :: _, [], h, _ => by simp [pyStrLeB] at h
  | a :: as, b :: bs, h1, h2 => by
    by_cases hab : a < b
    · simp only [pyStrLeB, if_neg (lt_asymm hab), if_pos hab] at h2
      cases h2
    · by_cases hba : b < a
      · simp only [pyStrLeB, if_neg hab, if_pos hba] at h1
        cases h1
      · have hab' : a = b := le_antisymm (not_lt.mp hba) (not_lt.mp hab)
        subst hab'
        simp only [pyStrLeB, if_neg hab, if_neg hba] at h1 h2
        rw [pyStrLeB_antisymm as bs h1 h2]

instance : IsTotal String pyStrLe where
  total a b := pyStrLeB_total a.data b.data

instance : IsTrans String pyStrLe where
  trans a b c := pyStrLeB_trans a.data b.data c.data

instance : IsAntisymm String pyStrLe where
  antisymm a b h1 h2 := String.ext (pyStrLeB_antisymm a.data b.data h1 h2)

/-- The sort key `lambda x: x[0].text`, as a total function (the fallible
subscript is accounted for separately by `primaryValues`). -/
def sortKey (x : Xml) : Option String := x.children.head?.bind Xml.text

/-- The ordering `sorted` uses on the elements of a `<ResourceRecords>`. -/
def valLe (x y : Xml) : Prop := textLe (sortKey x) (sortKey y)

instance : DecidableRel valLe := fun x y =>
  inferInstanceAs (Decidable (textLe (sortKey x) (sortKey y)))

instance : IsTotal (Option String) textLe where
  total a b := by
    match a, b with
    | none, _ => exact .inl trivial
    | some _, none => exact .inr trivial
    | some a, some b => exact IsTotal.total (r := pyStrLe) a b

instance : IsTrans (Option String) textLe where
  trans a b c hab hbc := by
    match a, b, c with
    | none, _, _ => trivial
    | some a, some b, some c => exact IsTrans.trans (r := pyStrLe) a b c hab hbc

instance : IsTotal Xml valLe where
  total x y := IsTotal.total (r := textLe) (sortKey x) (sortKey y)

instance : IsTrans Xml valLe where
  trans x y z := IsTrans.trans (r := textLe) (sortKey x) (sortKey y) (sortKey z)

/-- `sorted(rrs, key=lambda x: x[0].text)` evaluates the key of every
element first; `x[0]` on a childless element raises `IndexError`. -/
def primaryValues : List Xml → Except PyErr (List (Option String))
  | [] => .ok []
  | x :: xs =>
    match x.children with
    | [] => .error .indexError
    | c :: _ =>
      match primaryValues xs with
      | .error e => .error e
      | .ok ks => .ok (c.text :: ks)

/-- `rrs[:] = sorted(rrs, key=lambda x: x[0].text)`: a stable sort of the
children of a `<ResourceRecords>` element by first-child text
(`List.insertionSort` is stable, like Python's sort). -/
def sortValues (rrs : Xml) : Except PyErr Xml :=
  match primaryValues rrs.children with
  | .error e => .error e
  | .ok _ => .ok (.elem rrs.tag rrs.text (List.insertionSort valLe rrs.children))

/-- One child of a `<ResourceRecordSet>`: the body of the inner
`for rrs in rrset` loop (the two `if`s test distinct tags, so they are
written as an `if`/`else if` chain). -/
def normalizeChild (rrs : Xml) : Except PyErr Xml :=
  if rrs.tag = nameTag then
    match rrs.text with
    | none => .error .attributeError
    | some t =>
      if pyStartswith t "*." then
        .ok (.elem rrs.tag (some ("\\052." ++ pyDrop t 2)) rrs.children)
      else
        .ok rrs
  else if rrs.tag = rrsTag then
    sortValues rrs
  else
    .ok rrs

def normalizeChildren : List Xml → Except PyErr (List Xml)
  | [] => .ok []
  | c :: cs =>
    match normalizeChild c with
    | .error e => .error e
    | .ok c' =>
      match normalizeChildren cs with
      | .error e => .error e
      | .ok cs' => .ok (c' :: cs')

/-- One child of the `<ResourceRecordSets>` container: children whose tag
is not `ResourceRecordSet` pass through untouched. -/
def normalizeEntry (rrset : Xml) : Except PyErr Xml :=
  if rrset.tag = rrsetTag then
    match normalizeChildren rrset.children with
    | .error e => .error e
    | .ok cs => .ok (.elem rrset.tag rrset.text cs)
  else
    .ok rrset

def normalizeEntries : List Xml → Except PyErr (List Xml)
  | [] => .ok []
  | x :: xs =>
    match normalizeEntry x with
    | .error e => .error e
    | .ok x' =>
      match normalizeEntries xs with
      | .error e => .error e
      | .ok xs' => .ok (x' :: xs')

/-- `normalize_rrs(rrsets)` (r53.py lines 87-112): normalises every entry
in place and returns the container. -/
def normalize_rrs (rrsets : Xml) : Except PyErr Xml :=
  match normalizeEntries rrsets.children with
  | .error e => .error e
  | .ok cs => .ok (.elem rrsets.tag rrsets.text cs)

/-! ## generate_changeset (r53.py lines 114-161)

`generate_changeset(old, new, comment)` first checks
`rrsets_tag not in (old.tag, new.tag)` — note this raises
`InvalidArgumentException` only when *neither* argument carries the
container tag — then normalises both arguments in place, builds the set
of serialised entries of each side (`lxml.etree.tostring(x).rstrip()`; on
the stripped trees in play the serialisation has no trailing whitespace,
so `rstrip` is the identity and is dropped), returns `None` when the two
sets are equal, and otherwise walks `old` emitting a DELETE `<Change>`
for every entry whose serialisation is not in `new`'s set, then walks
`new` emitting a CREATE `<Change>` for every entry not in `old`'s set.

lxml effects are made explicit.  `change.append(rrs)` *moves* `rrs`: an
lxml element has a single parent, so appending it to the `<Change>`
detaches it from its container.  lxml's child iterator computes the next
sibling of the yielded element before the loop body runs, so removing
the yielded element does not disturb the iteration.  The embedding
therefore returns, besides the optional changeset, the final state of
both (mutated) input containers; `diffMove other l` splits the children
`l` into (moved-out, left-in-place) against the opposing serialisation
set `other`, in iteration order.
-/

/-- Python `set(a) == set(b)` for lists of serialised entries. -/
def pySetEq (a b : List String) : Bool :=
  a.all (fun s => b.contains s) && b.all (fun s => a.contains s)

/-- One iteration `for rrs in container`: entries whose serialisation is
absent from `other` are moved into the change list, the others stay. -/
def diffMove (other : List String) : List Xml → List Xml × List Xml
  | [] => ([], [])
  | x :: xs =>
    let (moved, kept) := diffMove other xs
    if other.contains (Xml.serialize x) then (moved, x :: kept)
    else (x :: moved, kept)

/-- `<Change><Action>DELETE</Action></Change>` with the entry appended. -/
def mkDelete (rrs : Xml) : Xml :=
  .elem changeTag none [.elem actionTag (some "DELETE") [], rrs]

/-- `<Change><Action>CREATE</Action></Change>` with the entry appended. -/
def mkCreate (rrs : Xml) : Xml :=
  .elem changeTag none [.elem actionTag (some "CREATE") [], rrs]

/-- The parsed `<ChangeResourceRecordSetsRequest>` skeleton with the
changes appended under `<Changes>`. -/
def changeRequest (comment : String) (changes : List Xml) : Xml :=
  .elem requestTag none
    [.elem changeBatchTag none
      [.elem commentTag (some comment) [],
       .elem changesTag none changes]]

/-- The source synthesises the default comment from `__file__`, `$USER`,
the hostname and the current time; no claim depends on its content, so it
is modelled as a fixed string. -/
def default_comment : String := "Generated by r53.py"

/-- `generate_changeset(old, new, comment=None)` (r53.py lines 114-161).
Returns the optional changeset together with the final states of the two
mutated input containers. -/
def generate_changeset (old new : Xml) (comment : Option String) :
    Except PyErr (Option Xml × Xml × Xml) :=
  if old.tag ≠ rrsetsTag ∧ new.tag ≠ rrsetsTag then
    .error .invalidArgument
  else
    match normalize_rrs old, normalize_rrs new with
    | .error e, _ => .error e
    | .ok _, .error e => .error e
    | .ok old', .ok new' =>
      let oldset := old'.children.map Xml.serialize
      let newset := new'.children.map Xml.serialize
      if pySetEq oldset newset then
        .ok (none, old', new')
      else
        let (removed, oldKept) := diffMove newset old'.children
        let (added, newKept) := diffMove oldset new'.children
        .ok (some (changeRequest (comment.getD default_comment)
                    (removed.map mkDelete ++ added.map mkCreate)),
             .elem old'.tag old'.text oldKept,
             .elem new'.tag new'.text newKept)

/-! ## validate_changeset (r53.py lines 163-185)

`changeset.findall('.//{ns}Tag')` returns every proper descendant of the
root with that tag, in document (preorder) order.  The four checks run
unconditionally and append their messages in order; the character check
computes `len(value.text)` for every `<Value>` descendant, which raises
`TypeError` when a value element has no text (`len(None)`).
-/

mutual
/-- All proper descendants of an element, in document (preorder) order. -/
def descendants : Xml → List Xml
  | .elem _ _ cs => descendantsList cs
termination_by structural x => x

def descendantsList : List Xml → List Xml
  | [] => []
  | c :: cs => (c :: descendants c) ++ descendantsList cs
termination_by structural xs => xs
end

theorem descendants_elem (t : String) (tx : Option String) (cs : List Xml) :
    descendants (.elem t tx cs) = cs.flatMap (fun c => c :: descendants c) := by
  show descendantsList cs = _
  induction cs with
  | nil => rfl
  | cons c cs ih => rw [descendantsList, List.flatMap_cons, ih]

/-- `element.findall('.//tag')`. -/
def findallTag (tag : String) (x : Xml) : List Xml :=
  (descendants x).filter (fun d => d.tag = tag)

/-- `for value in values: num_chars += len(value.text)`; `len(None)`
raises `TypeError`.  Python's `len` of a (py2 byte) string is its length;
all strings in play are ASCII, where `String.length` agrees. -/
def textLens : List Xml → Except PyErr Nat
  | [] => .ok 0
  | v :: vs =>
    match v.text with
    | none => .error .typeError
    | some t =>
      match textLens vs with
      | .error e => .error e
      | .ok n => .ok (t.length + n)

def emptyChangesetMsg : String := "changeset must have at least one <Change> element"

def changeCountMsg (n : Nat) : String :=
  "changeset has " ++ toString n ++ " <Change> elements: max is 100"

def rrCountMsg (n : Nat) : String :=
  "changeset has " ++ toString n ++ " ResourceRecord elements: max is 1000"

def charCountMsg (n : Nat) : String :=
  "changeset has " ++ toString n ++ " chars in <Value> text: max is 10000"

/-- `validate_changeset(changeset)` (r53.py lines 163-185). -/
def validate_changeset (changeset : Xml) : Except PyErr (List String) :=
  let numChanges := (findallTag changeTag changeset).length
  let e1 := if numChanges = 0 then [emptyChangesetMsg] else []
  let e2 := if numChanges > 100 then [changeCountMsg numChanges] else []
  let numRRs := (findallTag rrTag changeset).length
  let e3 := if numRRs > 1000 then [rrCountMsg numRRs] else []
  match textLens (findallTag valueTag changeset) with
  | .error e => .error e
  | .ok numChars =>
    let e4 := if numChars > 10000 then [charCountMsg numChars] else []
    .ok (e1 ++ e2 ++ e3 ++ e4)

/-! ## fetch_config and merge_config (r53.py lines 39-82)

The paging capability `conn.make_request('GET', getstr)` followed by
`lxml.etree.parse` is modelled as a function from the request path to the
parsed response's root element.  The loop keeps three cursor variables
`next_name`, `next_type`, `next_identifier` (each a string or `None`),
starting as `None`; when the previous response was truncated it appends
`?name=%s&type=%s` (and `&identifier=%s` when the identifier is not
`None`) to the path.  `root.find('{ns}Tag')` searches direct children
only and returns the first match; on a truncated page a missing
`NextRecordName`/`NextRecordType` makes `.text` on `None` raise
`AttributeError`, while a missing `NextRecordIdentifier` is caught and
becomes `None`.  The unbounded `while` loop is bounded by explicit fuel.
-/

/-- `root.find('{ns}tag')`: first direct child with the tag. -/
def findChild (tag : String) (x : Xml) : Option Xml :=
  x.children.find? (fun c => c.tag = tag)

/-- The request path `getstr` (r53.py lines 50-54). -/
def getstr (zone : String) (nName nType nId : Option String) : String :=
  "/" ++ R53_API_VERSION ++ "/hostedzone/" ++ zone ++ "/rrset" ++
    (if nName.isSome then
      "?name=" ++ pyFmt nName ++ "&type=" ++ pyFmt nType ++
        (if nId.isSome then "&identifier=" ++ pyFmt nId else "")
    else "")

/-- The `while more_to_fetch` loop of `fetch_config`, with fuel bounding
the number of page requests. -/
def fetchLoop (conn : String → Xml) (zone : String) :
    Nat → Option String → Option String → Option String → List Xml →
    Except PyErr (List Xml)
  | 0, _, _, _, _ => .error .outOfFuel
  | fuel + 1, nName, nType, nId, acc =>
    let root := conn (getstr zone nName nType nId)
    let acc' := acc ++ [root]
    match findChild isTruncatedTag root with
    | none => .ok acc'
    | some truncated =>
      if truncated.text = some "true" then
        match findChild nextNameTag root with
        | none => .error .attributeError
        | some nn =>
          match findChild nextTypeTag root with
          | none => .error .attributeError
          | some nt =>
            fetchLoop conn zone fuel nn.text nt.text
              ((findChild nextIdentifierTag root).bind Xml.text) acc'
      else .ok acc'

/-- `fetch_config(zone, conn)` (r53.py lines 39-71). -/
def fetch_config (conn : String → Xml) (zone : String) (fuel : Nat) :
    Except PyErr (List Xml) :=
  fetchLoop conn zone fuel none none none []

/-- `merge_config(cfg_chunks)` (r53.py lines 73-82): a fresh
`<ResourceRecordSets>` root into which every `ResourceRecordSet`
descendant of every chunk is appended (moved), in chunk order then
document order.  lxml's depth-first iterator also pre-computes its next
node before yielding, so the moves do not disturb the iteration. -/
def merge_config (cfgChunks : List Xml) : Xml :=
  .elem rrsetsTag none (cfgChunks.flatMap (fun chunk => findallTag rrsetTag chunk))

/-! ## A family of well-formed record-set entries

The parametric claims quantify over containers of schema-shaped entries:
`<ResourceRecordSet>` holding `<Name>`, `<Type>`, `<TTL>` and a
`<ResourceRecords>` list of single-`<Value>` records, the shape the
provider's API produces and the repository's tests use.
-/

structure Entry : Type where
  name : String
  rtype : String
  ttl : String
  values : List String
deriving DecidableEq

/-- `<ResourceRecord><Value>s</Value></ResourceRecord>` -/
def mkValue (s : String) : Xml :=
  .elem rrTag none [.elem valueTag (some s) []]

def entryXml (e : Entry) : Xml :=
  .elem rrsetTag none
    [.elem nameTag (some e.name) [],
     .elem typeTag (some e.rtype) [],
     .elem ttlTag (some e.ttl) [],
     .elem rrsTag none (e.values.map mkValue)]

def rrsetsXml (es : List Entry) : Xml :=
  .elem rrsetsTag none (es.map entryXml)

/-- The wildcard rewrite applied to a name string by `normalize_rrs`. -/
def normName (s : String) : String :=
  if pyStartswith s "*." then "\\052." ++ pyDrop s 2 else s

/-- What `normalize_rrs` does to one schema-shaped entry: rewrite the
name, stably sort the values. -/
def normEntry (e : Entry) : Entry :=
  ⟨normName e.name, e.rtype, e.ttl, List.insertionSort pyStrLe e.values⟩

/-- The serialised form of a schema-shaped entry. -/
def entrySer (e : Entry) : String := Xml.serialize (entryXml e)

/-! ## Basic lemmas about the embedded operations -/

theorem containsIffMem (l : List String) (a : String) : l.contains a = true ↔ a ∈ l := by
  simp

theorem pySetEq_self (l : List String) : pySetEq l l = true := by
  simp [pySetEq, List.all_eq_true]

theorem pySetEq_eq_false (a b : List String) (s : String) (hs : s ∈ a) (hns : s ∉ b) :
    pySetEq a b = false := by
  apply Bool.eq_false_iff.mpr
  intro h
  simp only [pySetEq, Bool.and_eq_true, List.all_eq_true] at h
  have hc := h.1 s hs
  exact hns ((containsIffMem b s).mp hc)

theorem diffMove_eq_filter (other : List String) (l : List Xml) :
    diffMove other l =
      (l.filter (fun x => !(other.contains (Xml.serialize x))),
       l.filter (fun x => other.contains (Xml.serialize x))) := by
  induction l with
  | nil => rfl
  | cons x xs ih =>
    by_cases h : Xml.serialize x ∈ other
    · simp [diffMove, ih, List.filter_cons, h]
    · simp [diffMove, ih, List.filter_cons, h]

/-! ## Action of normalize_rrs on schema-shaped entries -/

theorem primaryValues_map_mkValue (vs : List String) :
    primaryValues (vs.map mkValue) = .ok (vs.map some) := by
  induction vs with
  | nil => rfl
  | cons v vs ih => simp [primaryValues, mkValue, ih, Xml.children, Xml.text]

theorem valLe_mkValue (a b : String) : valLe (mkValue a) (mkValue b) ↔ pyStrLe a b :=
  Iff.rfl

theorem insertionSort_map_mkValue (vs : List String) :
    List.insertionSort valLe (vs.map mkValue) =
      (List.insertionSort pyStrLe vs).map mkValue := by
  rw [List.map_insertionSort pyStrLe valLe mkValue vs]
  intro a _ b _
  exact (valLe_mkValue a b).symm

theorem typeTag_ne_nameTag : typeTag ≠ nameTag := by decide
theorem typeTag_ne_rrsTag : typeTag ≠ rrsTag := by decide
theorem ttlTag_ne_nameTag : ttlTag ≠ nameTag := by decide
theorem ttlTag_ne_rrsTag : ttlTag ≠ rrsTag := by decide
theorem rrsTag_ne_nameTag : rrsTag ≠ nameTag := by decide

theorem normalizeChild_name (s : String) :
    normalizeChild (.elem nameTag (some s) []) = .ok (.elem nameTag (some (normName s)) []) := by
  by_cases h : pyStartswith s "*." = true
  · simp [normalizeChild, Xml.tag, Xml.text, Xml.children, normName, h]
  · simp [normalizeChild, Xml.tag, Xml.text, Xml.children, normName, h]

theorem normalizeChild_rrs (vs : List String) :
    normalizeChild (.elem rrsTag none (vs.map mkValue)) =
      .ok (.elem rrsTag none ((List.insertionSort pyStrLe vs).map mkValue)) := by
  simp [normalizeChild, Xml.tag, rrsTag_ne_nameTag, sortValues, Xml.children,
    primaryValues_map_mkValue, Xml.text, insertionSort_map_mkValue]

theorem normalizeChild_notName (t : String) (tx : Option String) (cs : List Xml)
    (h1 : t ≠ nameTag) (h2 : t ≠ rrsTag) :
    normalizeChild (.elem t tx cs) = .ok (.elem t tx cs) := by
  simp [normalizeChild, Xml.tag, h1, h2]

theorem normalizeEntry_entryXml (e : Entry) :
    normalizeEntry (entryXml e) = .ok (entryXml (normEntry e)) := by
  have hty := normalizeChild_notName typeTag (some e.rtype) [] typeTag_ne_nameTag typeTag_ne_rrsTag
  have httl := normalizeChild_notName ttlTag (some e.ttl) [] ttlTag_ne_nameTag ttlTag_ne_rrsTag
  simp [normalizeEntry, entryXml, Xml.tag, Xml.children, Xml.text, normalizeChildren,
    normalizeChild_name, normalizeChild_rrs, hty, httl, normEntry]

theorem normalizeEntries_map (es : List Entry) :
    normalizeEntries (es.map entryXml) = .ok ((es.map normEntry).map entryXml) := by
  induction es with
  | nil => rfl
  | cons e es ih => simp [normalizeEntries, normalizeEntry_entryXml, ih]

theorem normalize_rrs_rrsetsXml (es : List Entry) :
    normalize_rrs (rrsetsXml es) = .ok (rrsetsXml (es.map normEntry)) := by
  simp [normalize_rrs, rrsetsXml, Xml.children, normalizeEntries_map, Xml.tag, Xml.text]

/-- C1: diffing a container against itself returns `None`.  For every
element `X` carrying the provider's `ResourceRecordSets` container tag
which normalisation accepts, `generate_changeset X X` checks equality of
the two serialised-entry sets before producing any change list and
returns `None` (no DELETE or CREATE is ever emitted), leaving both
(identical) containers merely normalised. -/
theorem generate_changeset_self_none (X X' : Xml) (c : Option String)
    (hTag : X.tag = rrsetsTag) (hN : normalize_rrs X = .ok X') :
    generate_changeset X X c = .ok (none, X', X') := by
  have hne : ¬(X.tag ≠ rrsetsTag ∧ X.tag ≠ rrsetsTag) := fun h => h.1 hTag
  simp [generate_changeset, hne, hN, pySetEq_self, hTag]

theorem generate_changeset_self_none_check :
    generate_changeset (rrsetsXml [⟨"a.example.com.", "A", "60", ["192.0.2.1"]⟩])
        (rrsetsXml [⟨"a.example.com.", "A", "60", ["192.0.2.1"]⟩]) none
      = .ok (none, rrsetsXml [⟨"a.example.com.", "A", "60", ["192.0.2.1"]⟩],
             rrsetsXml [⟨"a.example.com.", "A", "60", ["192.0.2.1"]⟩]) :=
  generate_changeset_self_none _ _ none (by decide) (by decide)

/-! ## Idempotence of normalize_rrs -/

theorem pyStartswith_escaped (z : String) : pyStartswith ("\\052." ++ z) "*." = false := by
  have hd : ("\\052." ++ z).data = '\\' :: '0' :: '5' :: '2' :: '.' :: z.data := by
    rw [String.data_append]
    rfl
  simp [pyStartswith, hd, List.isPrefixOf]

theorem primaryValues_isOk_iff (l : List Xml) :
    (∃ ks, primaryValues l = .ok ks) ↔ ∀ x ∈ l, x.children ≠ [] := by
  induction l with
  | nil => simp [primaryValues]
  | cons x xs ih =>
    constructor
    · rintro ⟨ks, hks⟩ y hy
      rcases List.mem_cons.mp hy with hy | hy
      · subst hy
        intro hnil
        rw [primaryValues, hnil] at hks
        cases hks
      · rcases hcs : x.children with _ | ⟨c, cs⟩
        · rw [primaryValues, hcs] at hks
          cases hks
        · rw [primaryValues, hcs] at hks
          rcases hpv : primaryValues xs with e | ks'
          · rw [hpv] at hks
            cases hks
          · exact ih.mp ⟨ks', hpv⟩ y hy
    · intro hall
      rcases hcs : x.children with _ | ⟨c, cs⟩
      · exact absurd hcs (hall x (by simp))
      · rcases ih.mpr (fun y hy => hall y (by simp [hy])) with ⟨ks, hks⟩
        exact ⟨c.text :: ks, by rw [primaryValues, hcs, hks]⟩

theorem sortValues_idem (x y : Xml) (h : sortValues x = .ok y) : sortValues y = .ok y := by
  rcases hpv : primaryValues x.children with e | ks
  · rw [sortValues, hpv] at h
    cases h
  · rw [sortValues, hpv] at h
    have hy := Except.ok.inj h
    subst hy
    have hperm : List.Perm (List.insertionSort valLe x.children) x.children :=
      List.perm_insertionSort valLe x.children
    have hok : ∃ ks', primaryValues (List.insertionSort valLe x.children) = .ok ks' := by
      rw [primaryValues_isOk_iff]
      intro z hz
      exact (primaryValues_isOk_iff x.children).mp ⟨ks, hpv⟩ z (hperm.mem_iff.mp hz)
    rcases hok with ⟨ks', hks'⟩
    have hfix := List.Sorted.insertionSort_eq (List.sorted_insertionSort valLe x.children)
    rw [sortValues, Xml.children, hks', Xml.tag, Xml.text, hfix]

theorem normName_idem (s : String) : normName (normName s) = normName s := by
  by_cases h : pyStartswith s "*." = true
  · simp [normName, h, pyStartswith_escaped]
  · simp [normName, h]

theorem normalizeChild_nameG (s : String) (cs : List Xml) :
    normalizeChild (.elem nameTag (some s) cs) = .ok (.elem nameTag (some (normName s)) cs) := by
  by_cases h : pyStartswith s "*." = true
  · simp [normalizeChild, Xml.tag, Xml.text, Xml.children, normName, h]
  · simp [normalizeChild, Xml.tag, Xml.text, Xml.children, normName, h]

theorem normalizeChild_idem (c c' : Xml) (h : normalizeChild c = .ok c') :
    normalizeChild c' = .ok c' := by
  cases c with
  | elem t tx cs =>
    by_cases ht : t = nameTag
    · subst ht
      cases tx with
      | none =>
        have hbad : normalizeChild (Xml.elem nameTag none cs) = .error .attributeError := by
          simp [normalizeChild, Xml.tag, Xml.text]
        rw [hbad] at h
        cases h
      | some s =>
        rw [normalizeChild_nameG] at h
        have hc' := Except.ok.inj h
        subst hc'
        rw [normalizeChild_nameG, normName_idem]
    · by_cases hr : t = rrsTag
      · subst hr
        have hrw : normalizeChild (Xml.elem rrsTag tx cs) = sortValues (Xml.elem rrsTag tx cs) := by
          simp [normalizeChild, Xml.tag, rrsTag_ne_nameTag]
        rw [hrw] at h
        have hy := sortValues_idem _ _ h
        have hytag : c'.tag = rrsTag := by
          rcases hpv : primaryValues (Xml.elem rrsTag tx cs).children with e | ks
          · rw [sortValues, hpv] at h
            cases h
          · rw [sortValues, hpv] at h
            have hc' := Except.ok.inj h
            subst hc'
            rfl
        have hrw2 : normalizeChild c' = sortValues c' := by
          simp [normalizeChild, hytag, rrsTag_ne_nameTag]
        rw [hrw2]
        exact hy
      · have hrw : normalizeChild (Xml.elem t tx cs) = .ok (Xml.elem t tx cs) :=
          normalizeChild_notName t tx cs ht hr
        rw [hrw] at h
        have hc' := Except.ok.inj h
        subst hc'
        exact hrw

theorem normalizeChildren_idem (l l' : List Xml) (h : normalizeChildren l = .ok l') :
    normalizeChildren l' = .ok l' := by
  induction l generalizing l' with
  | nil =>
    cases h
    rfl
  | cons c cs ih =>
    rcases hc : normalizeChild c with e | c2
    · rw [normalizeChildren, hc] at h
      cases h
    · rw [normalizeChildren, hc] at h
      rcases hcs : normalizeChildren cs with e | cs2
      · rw [hcs] at h
        cases h
      · rw [hcs] at h
        cases h
        rw [normalizeChildren, normalizeChild_idem c c2 hc, ih cs2 hcs]

theorem normalizeEntry_idem (x y : Xml) (h : normalizeEntry x = .ok y) :
    normalizeEntry y = .ok y := by
  by_cases ht : x.tag = rrsetTag
  · rw [normalizeEntry, if_pos ht] at h
    rcases hcs : normalizeChildren x.children with e | cs'
    · rw [hcs] at h
      cases h
    · rw [hcs] at h
      cases h
      rw [normalizeEntry, if_pos (by simpa [Xml.tag] using ht), Xml.children,
        normalizeChildren_idem _ _ hcs, Xml.tag, Xml.text]
  · rw [normalizeEntry, if_neg ht] at h
    cases h
    rw [normalizeEntry, if_neg ht]

theorem normalizeEntries_idem (l l' : List Xml) (h : normalizeEntries l = .ok l') :
    normalizeEntries l' = .ok l' := by
  induction l generalizing l' with
  | nil =>
    cases h
    rfl
  | cons x xs ih =>
    rcases hx : normalizeEntry x with e | x2
    · rw [normalizeEntries, hx] at h
      cases h
    · rw [normalizeEntries, hx] at h
      rcases hxs : normalizeEntries xs with e | xs2
      · rw [hxs] at h
        cases h
      · rw [hxs] at h
        cases h
        rw [normalizeEntries, normalizeEntry_idem x x2 hx, ih xs2 hxs]

/-- C6: `normalize_rrs` is idempotent.  Whenever normalising a container
`X` succeeds and yields `Y`, normalising `Y` again succeeds and returns
`Y` itself unchanged (hence in particular it serialises identically):
re-sorting an already-sorted value list and wildcard-rewriting an
already-escaped name are both no-ops. -/
theorem normalize_rrs_idempotent (X Y : Xml) (h : normalize_rrs X = .ok Y) :
    normalize_rrs Y = .ok Y := by
  rcases hes : normalizeEntries X.children with e | cs'
  · rw [normalize_rrs, hes] at h
    cases h
  · rw [normalize_rrs, hes] at h
    cases h
    rw [normalize_rrs, Xml.children, normalizeEntries_idem _ _ hes, Xml.tag, Xml.text]

theorem normalize_rrs_idempotent_check :
    normalize_rrs (rrsetsXml [⟨"\\052.example.com.", "NS", "300", ["a.ns.", "b.ns."]⟩])
      = .ok (rrsetsXml [⟨"\\052.example.com.", "NS", "300", ["a.ns.", "b.ns."]⟩]) :=
  normalize_rrs_idempotent
    (rrsetsXml [⟨"*.example.com.", "NS", "300", ["b.ns.", "a.ns."]⟩]) _ (by decide)

/-! ## Order-insensitivity and wildcard equivalence of the diff -/

theorem insertionSort_perm_eq (vs vs' : List String) (h : List.Perm vs vs') :
    List.insertionSort pyStrLe vs = List.insertionSort pyStrLe vs' :=
  List.eq_of_perm_of_sorted
    ((List.perm_insertionSort pyStrLe vs).trans
      (h.trans (List.perm_insertionSort pyStrLe vs').symm))
    (List.sorted_insertionSort pyStrLe vs) (List.sorted_insertionSort pyStrLe vs')

theorem generate_changeset_none_of_norm_eq (old new X' : Xml) (c : Option String)
    (hTag : old.tag = rrsetsTag)
    (h1 : normalize_rrs old = .ok X') (h2 : normalize_rrs new = .ok X') :
    generate_changeset old new c = .ok (none, X', X') := by
  have hne : ¬(old.tag ≠ rrsetsTag ∧ new.tag ≠ rrsetsTag) := fun h => h.1 hTag
  simp [generate_changeset, hne, h1, h2, pySetEq_self]

theorem rrsetsXml_tag (es : List Entry) : (rrsetsXml es).tag = rrsetsTag := rfl

/-- C4: `normalize_rrs` sorts every entry's value list lexicographically by
the value text (`normEntry` records this action on a schema-shaped entry),
so two containers that differ only by a permutation of one entry's value
list normalise to the same canonical form, and diffing them returns
`None`. -/
theorem generate_changeset_value_perm (pre post : List Entry) (n t ttl : String)
    (vs vs' : List String) (hperm : List.Perm vs vs') (c : Option String) :
    normalize_rrs (rrsetsXml (pre ++ ⟨n, t, ttl, vs⟩ :: post))
      = normalize_rrs (rrsetsXml (pre ++ ⟨n, t, ttl, vs'⟩ :: post)) ∧
    generate_changeset (rrsetsXml (pre ++ ⟨n, t, ttl, vs⟩ :: post))
        (rrsetsXml (pre ++ ⟨n, t, ttl, vs'⟩ :: post)) c
      = .ok (none, rrsetsXml ((pre ++ ⟨n, t, ttl, vs⟩ :: post).map normEntry),
             rrsetsXml ((pre ++ ⟨n, t, ttl, vs⟩ :: post).map normEntry)) := by
  have hE : normEntry ⟨n, t, ttl, vs⟩ = normEntry ⟨n, t, ttl, vs'⟩ := by
    simp [normEntry, insertionSort_perm_eq vs vs' hperm]
  have hmap : (pre ++ (⟨n, t, ttl, vs⟩ : Entry) :: post).map normEntry
      = (pre ++ (⟨n, t, ttl, vs'⟩ : Entry) :: post).map normEntry := by
    simp [hE]
  refine ⟨?_, ?_⟩
  · rw [normalize_rrs_rrsetsXml, normalize_rrs_rrsetsXml, hmap]
  · exact generate_changeset_none_of_norm_eq _ _ _ c (rrsetsXml_tag _)
      (normalize_rrs_rrsetsXml _) (by rw [normalize_rrs_rrsetsXml, hmap])

theorem generate_changeset_value_perm_check :
    generate_changeset
        (rrsetsXml [⟨"example.com.", "NS", "172800", ["ns1.x.", "ns2.x.", "ns3.x."]⟩])
        (rrsetsXml [⟨"example.com.", "NS", "172800", ["ns2.x.", "ns3.x.", "ns1.x."]⟩]) none
      = .ok (none, rrsetsXml [⟨"example.com.", "NS", "172800", ["ns1.x.", "ns2.x.", "ns3.x."]⟩],
             rrsetsXml [⟨"example.com.", "NS", "172800", ["ns1.x.", "ns2.x.", "ns3.x."]⟩]) :=
  (generate_changeset_value_perm [] [] "example.com." "NS" "172800"
    ["ns1.x.", "ns2.x.", "ns3.x."] ["ns2.x.", "ns3.x.", "ns1.x."] (by decide) none).2

theorem pyStartswith_star (s : String) : pyStartswith ("*." ++ s) "*." = true := by
  have hd : ("*." ++ s).data = '*' :: '.' :: s.data := by
    rw [String.data_append]
    rfl
  simp [pyStartswith, hd, List.isPrefixOf]

theorem pyDrop_star (s : String) : pyDrop ("*." ++ s) 2 = s := by
  have hd : ("*." ++ s).data = '*' :: '.' :: s.data := by
    rw [String.data_append]
    rfl
  simp [pyDrop, hd]

theorem normName_star (s : String) : normName ("*." ++ s) = "\\052." ++ s := by
  simp [normName, pyStartswith_star, pyDrop_star]

theorem normName_escaped (s : String) : normName ("\\052." ++ s) = "\\052." ++ s := by
  simp [normName, pyStartswith_escaped]

/-- C5: `normalize_rrs` rewrites a name starting with the literal `*.`
prefix to `\052.` followed by the rest of the name; an entry written with
the plain wildcard prefix and an otherwise identical entry written with
the escaped form normalise to the same entry (hence the same serialised
form), and diffing containers holding them returns `None`. -/
theorem generate_changeset_wildcard (pre post : List Entry) (s t ttl : String)
    (vs : List String) (c : Option String) :
    normName ("*." ++ s) = "\\052." ++ s ∧
    entrySer (normEntry ⟨"*." ++ s, t, ttl, vs⟩)
      = entrySer (normEntry ⟨"\\052." ++ s, t, ttl, vs⟩) ∧
    generate_changeset (rrsetsXml (pre ++ ⟨"*." ++ s, t, ttl, vs⟩ :: post))
        (rrsetsXml (pre ++ ⟨"\\052." ++ s, t, ttl, vs⟩ :: post)) c
      = .ok (none, rrsetsXml ((pre ++ ⟨"*." ++ s, t, ttl, vs⟩ :: post).map normEntry),
             rrsetsXml ((pre ++ ⟨"*." ++ s, t, ttl, vs⟩ :: post).map normEntry)) := by
  have hE : normEntry ⟨"*." ++ s, t, ttl, vs⟩ = normEntry ⟨"\\052." ++ s, t, ttl, vs⟩ := by
    simp [normEntry, normName_star, normName_escaped]
  have hmap : (pre ++ (⟨"*." ++ s, t, ttl, vs⟩ : Entry) :: post).map normEntry
      = (pre ++ (⟨"\\052." ++ s, t, ttl, vs⟩ : Entry) :: post).map normEntry := by
    simp [hE]
  refine ⟨normName_star s, by rw [hE], ?_⟩
  exact generate_changeset_none_of_norm_eq _ _ _ c (rrsetsXml_tag _)
    (normalize_rrs_rrsetsXml _) (by rw [normalize_rrs_rrsetsXml, hmap])

/-! ## The replace scenario -/

theorem data_empty_str : ("" : String).data = [] := rfl

theorem entrySer_ttl_ne (n t a b : String) (vs : List String) (h : a ≠ b) :
    entrySer ⟨n, t, a, vs⟩ ≠ entrySer ⟨n, t, b, vs⟩ := by
  intro heq
  apply h
  have hd := congrArg String.data heq
  simp only [entrySer, entryXml, Xml.serialize, Xml.serializeList, Option.getD,
    String.data_append, List.append_assoc, data_empty_str, List.append_nil,
    List.nil_append] at hd
  repeat replace hd := List.append_cancel_left hd
  exact String.ext (List.append_cancel_right hd)

/-- The success path of `generate_changeset` in terms of its ingredients:
under a correct container tag, successful normalisation and unequal
serialised-entry sets, the result is the DELETE list (entries of the
normalised `old` absent from `new`'s set, in order) followed by the
CREATE list (entries of the normalised `new` absent from `old`'s set, in
order), and each input container is left holding exactly its other
entries. -/
theorem generate_changeset_spec (old new old' new' : Xml) (c : Option String)
    (hTag : ¬(old.tag ≠ rrsetsTag ∧ new.tag ≠ rrsetsTag))
    (h1 : normalize_rrs old = .ok old') (h2 : normalize_rrs new = .ok new')
    (hne : pySetEq (old'.children.map Xml.serialize) (new'.children.map Xml.serialize) = false) :
    generate_changeset old new c = .ok
      (some (changeRequest (c.getD default_comment)
        (((old'.children.filter
            (fun x => !((new'.children.map Xml.serialize).contains (Xml.serialize x)))).map mkDelete)
          ++ ((new'.children.filter
            (fun x => !((old'.children.map Xml.serialize).contains (Xml.serialize x)))).map mkCreate))),
       .elem old'.tag old'.text (old'.children.filter
         (fun x => (new'.children.map Xml.serialize).contains (Xml.serialize x))),
       .elem new'.tag new'.text (new'.children.filter
         (fun x => (old'.children.map Xml.serialize).contains (Xml.serialize x)))) := by
  simp [generate_changeset, hTag, h1, h2, hne, diffMove_eq_filter]

theorem rrsetsXml_children (es : List Entry) : (rrsetsXml es).children = es.map entryXml := rfl

theorem rrsetsXml_text (es : List Entry) : (rrsetsXml es).text = none := rfl

theorem map_serialize_entries (l : List Entry) :
    ((l.map normEntry).map entryXml).map Xml.serialize
      = l.map (fun p => entrySer (normEntry p)) := by
  simp [List.map_map, Function.comp, entrySer]

theorem filter_drop_all (sers : List String) (l : List Entry)
    (h : ∀ p ∈ l, entrySer (normEntry p) ∈ sers) :
    ((l.map normEntry).map entryXml).filter
      (fun x => !(sers.contains (Xml.serialize x))) = [] := by
  induction l with
  | nil => rfl
  | cons p l ih =>
    have hm : Xml.serialize (entryXml (normEntry p)) ∈ sers := h p (by simp)
    have ih' := ih (fun q hq => h q (by simp [hq]))
    simp at ih'
    simp [hm]
    exact ih' 

theorem filter_keep_all (sers : List String) (l : List Entry)
    (h : ∀ p ∈ l, entrySer (normEntry p) ∈ sers) :
    ((l.map normEntry).map entryXml).filter
      (fun x => sers.contains (Xml.serialize x)) = (l.map normEntry).map entryXml := by
  induction l with
  | nil => rfl
  | cons p l ih =>
    have hm : Xml.serialize (entryXml (normEntry p)) ∈ sers := h p (by simp)
    have ih' := ih (fun q hq => h q (by simp [hq]))
    simp at ih'
    simp [hm]
    exact ih' 

theorem filter_mid_drop (sers : List String) (pre post : List Entry) (mid : Xml)
    (hpre : ∀ p ∈ pre, entrySer (normEntry p) ∈ sers)
    (hpost : ∀ p ∈ post, entrySer (normEntry p) ∈ sers)
    (hmid : sers.contains (Xml.serialize mid) = false) :
    ((pre.map normEntry).map entryXml ++ mid :: (post.map normEntry).map entryXml).filter
      (fun x => !(sers.contains (Xml.serialize x))) = [mid] := by
  rw [List.filter_append, List.filter_cons, filter_drop_all sers pre hpre,
    filter_drop_all sers post hpost, hmid]
  simp

theorem filter_mid_keep (sers : List String) (pre post : List Entry) (mid : Xml)
    (hpre : ∀ p ∈ pre, entrySer (normEntry p) ∈ sers)
    (hpost : ∀ p ∈ post, entrySer (normEntry p) ∈ sers)
    (hmid : sers.contains (Xml.serialize mid) = false) :
    ((pre.map normEntry).map entryXml ++ mid :: (post.map normEntry).map entryXml).filter
      (fun x => sers.contains (Xml.serialize x))
      = (pre.map normEntry).map entryXml ++ (post.map normEntry).map entryXml := by
  rw [List.filter_append, List.filter_cons, filter_keep_all sers pre hpre,
    filter_keep_all sers post hpost, hmid]
  simp

/-- Splitting a concatenation at the first markup character: when neither
prefix contains the character `<` and both suffixes start with it, the
prefixes and the suffixes agree separately.  This is what makes the
shallow renderer injective on markup-free text: the next `<` always
belongs to the serialiser's own delimiters. -/
theorem chunkSplit : ∀ (a b s t : List Char), '<' ∉ a → '<' ∉ b →
    a ++ s = b ++ t → s.head? = some '<' → t.head? = some '<' → a = b ∧ s = t
  | [], [], _, _, _, _, h, _, _ => ⟨rfl, h⟩
  | [], d :: b', s, _, _, hb, h, hs, _ => by
    exfalso
    rw [List.nil_append] at h
    subst h
    simp only [List.cons_append, List.head?_cons, Option.some.injEq] at hs
    exact hb (hs ▸ List.mem_cons_self d b')
  | c :: a', [], _, t, ha, _, h, _, ht => by
    exfalso
    rw [List.nil_append] at h
    rw [← h] at ht
    simp only [List.cons_append, List.head?_cons, Option.some.injEq] at ht
    exact ha (ht ▸ List.mem_cons_self c a')
  | c :: a', d :: b', s, t, ha, hb, h, hs, ht => by
    simp only [List.cons_append, List.cons.injEq] at h
    obtain ⟨hcd, htl⟩ := h
    obtain ⟨h1, h2⟩ := chunkSplit a' b' s t
      (fun hm => ha (List.mem_cons_of_mem c hm))
      (fun hm => hb (List.mem_cons_of_mem d hm)) htl hs ht
    exact ⟨by rw [hcd, h1], h2⟩

/-- The rendering of a `<ResourceRecords>` value list is injective on
markup-free value strings: each value sits between fixed delimiters that
begin with `<`, a character the values themselves do not contain. -/
theorem serializeList_mkValue_inj : ∀ (us ws : List String),
    (∀ v ∈ us, '<' ∉ v.data) → (∀ v ∈ ws, '<' ∉ v.data) →
    Xml.serializeList (us.map mkValue) = Xml.serializeList (ws.map mkValue) → us = ws
  | [], [], _, _, _ => rfl
  | [], w :: ws, _, _, h => by
    exfalso
    have hd := congrArg String.data h
    simp only [List.map_nil, List.map_cons, Xml.serializeList, Xml.serialize, mkValue,
      Option.getD, String.data_append, List.append_assoc, data_empty_str,
      List.append_nil, List.nil_append] at hd
    simp at hd
  | u :: us, [], _, _, h => by
    exfalso
    have hd := congrArg String.data h
    simp only [List.map_nil, List.map_cons, Xml.serializeList, Xml.serialize, mkValue,
      Option.getD, String.data_append, List.append_assoc, data_empty_str,
      List.append_nil, List.nil_append] at hd
    simp at hd
  | u :: us, w :: ws, hus, hws, h => by
    have hd := congrArg String.data h
    simp only [List.map_cons, Xml.serializeList, Xml.serialize, mkValue, Option.getD,
      String.data_append, List.append_assoc, data_empty_str, List.append_nil,
      List.nil_append] at hd
    repeat replace hd := List.append_cancel_left hd
    obtain ⟨h1, h2⟩ := chunkSplit u.data w.data _ _ (hus u (by simp)) (hws w (by simp))
      hd rfl rfl
    repeat replace h2 := List.append_cancel_left h2
    rw [String.ext h1, serializeList_mkValue_inj us ws
      (fun v hv => hus v (by simp [hv])) (fun v hv => hws v (by simp [hv]))
      (String.ext h2)]

/-- Two schema-shaped entries with the same name and type but distinct
TTL or distinct value lists serialise differently, provided TTLs and
values are free of the markup character `<` (lxml escapes markup inside
text on real documents, so its `tostring` distinguishes such entries
regardless; the shallow renderer needs the markup-free condition to
mirror that distinction). -/
theorem entrySer_ne_of_canonical_ne (n t a b : String) (us ws : List String)
    (hna : '<' ∉ a.data) (hnb : '<' ∉ b.data)
    (hus : ∀ v ∈ us, '<' ∉ v.data) (hws : ∀ v ∈ ws, '<' ∉ v.data)
    (hne : ¬(a = b ∧ us = ws)) :
    entrySer ⟨n, t, a, us⟩ ≠ entrySer ⟨n, t, b, ws⟩ := by
  intro heq
  apply hne
  have hd := congrArg String.data heq
  simp only [entrySer, entryXml, Xml.serialize, Xml.serializeList, Option.getD,
    String.data_append, List.append_assoc, data_empty_str, List.append_nil,
    List.nil_append] at hd
  repeat replace hd := List.append_cancel_left hd
  obtain ⟨h1, h2⟩ := chunkSplit a.data b.data _ _ hna hnb hd rfl rfl
  repeat replace h2 := List.append_cancel_left h2
  replace h2 := List.append_cancel_right h2
  exact ⟨String.ext h1, serializeList_mkValue_inj us ws hus hws (String.ext h2)⟩

/-- C2 (counterexample to the frozen claim): an entry that differs only
in its values while keeping the same name and type — here by a mere
reordering of the value list — produces no DELETE and no CREATE.
Normalisation sorts both value lists into the same canonical order, the
two serialised-entry sets come out equal, and `generate_changeset`
returns `None` instead of the claimed one-DELETE-one-CREATE changeset. -/
theorem generate_changeset_values_permuted_none :
    generate_changeset
        (rrsetsXml [⟨"www.example.com.", "TXT", "300", ["beta", "alpha"]⟩])
        (rrsetsXml [⟨"www.example.com.", "TXT", "300", ["alpha", "beta"]⟩]) (some "c")
      = .ok (none,
             rrsetsXml [⟨"www.example.com.", "TXT", "300", ["alpha", "beta"]⟩],
             rrsetsXml [⟨"www.example.com.", "TXT", "300", ["alpha", "beta"]⟩]) := by
  decide

/-- C2 (amended): the replace scenario.  When `old` and `new` agree
except that one entry keeps its name and type but changes its TTL and/or
its values, with the change surviving canonicalisation — the TTLs differ,
or the lexicographically sorted value lists differ; a mere reordering of
values does not count (see the counterexample above) — with TTLs and
values free of the markup character `<` as in the provider's data model,
and with neither version of that entry duplicating another entry's
serialised form, the changeset contains exactly one DELETE carrying the
full (normalised) old entry and exactly one CREATE carrying the full
(normalised) new entry, with the DELETEs (walked in `old`'s order) before
the CREATEs (walked in `new`'s order); both moved entries leave their
containers. -/
theorem generate_changeset_replace (pre post : List Entry) (n t ttl ttl' : String)
    (vs vs' : List String) (c : Option String)
    (hmA : '<' ∉ ttl.data) (hmB : '<' ∉ ttl'.data)
    (hvs : ∀ v ∈ vs, '<' ∉ v.data) (hvs' : ∀ v ∈ vs', '<' ∉ v.data)
    (hdiff : ttl ≠ ttl' ∨ List.insertionSort pyStrLe vs ≠ List.insertionSort pyStrLe vs')
    (h1 : entrySer (normEntry ⟨n, t, ttl, vs⟩)
        ∉ (pre ++ post).map (fun p => entrySer (normEntry p)))
    (h2 : entrySer (normEntry ⟨n, t, ttl', vs'⟩)
        ∉ (pre ++ post).map (fun p => entrySer (normEntry p))) :
    generate_changeset (rrsetsXml (pre ++ ⟨n, t, ttl, vs⟩ :: post))
        (rrsetsXml (pre ++ ⟨n, t, ttl', vs'⟩ :: post)) c
      = .ok (some (changeRequest (c.getD default_comment)
              [mkDelete (entryXml (normEntry ⟨n, t, ttl, vs⟩)),
               mkCreate (entryXml (normEntry ⟨n, t, ttl', vs'⟩))]),
            rrsetsXml ((pre ++ post).map normEntry),
            rrsetsXml ((pre ++ post).map normEntry)) := by
  have hfAB : entrySer (normEntry ⟨n, t, ttl, vs⟩)
      ≠ entrySer (normEntry ⟨n, t, ttl', vs'⟩) := by
    have hne : ¬(ttl = ttl' ∧
        List.insertionSort pyStrLe vs = List.insertionSort pyStrLe vs') := by
      rcases hdiff with hd | hd
      · exact fun hh => hd hh.1
      · exact fun hh => hd hh.2
    exact entrySer_ne_of_canonical_ne (normName n) t ttl ttl'
      (List.insertionSort pyStrLe vs) (List.insertionSort pyStrLe vs') hmA hmB
      (fun v hv => hvs v (by simpa using hv))
      (fun v hv => hvs' v (by simpa using hv)) hne
  have hAnotinNew : entrySer (normEntry ⟨n, t, ttl, vs⟩)
      ∉ (pre ++ (⟨n, t, ttl', vs'⟩ : Entry) :: post).map (fun p => entrySer (normEntry p)) := by
    intro hm
    obtain ⟨p, hp, hfp⟩ := List.mem_map.mp hm
    rcases List.mem_append.mp hp with hp | hp
    · exact h1 (List.mem_map.mpr ⟨p, List.mem_append.mpr (.inl hp), hfp⟩)
    · rcases List.mem_cons.mp hp with rfl | hp
      · exact hfAB hfp.symm
      · exact h1 (List.mem_map.mpr ⟨p, List.mem_append.mpr (.inr hp), hfp⟩)
  have hBnotinOld : entrySer (normEntry ⟨n, t, ttl', vs'⟩)
      ∉ (pre ++ (⟨n, t, ttl, vs⟩ : Entry) :: post).map (fun p => entrySer (normEntry p)) := by
    intro hm
    obtain ⟨p, hp, hfp⟩ := List.mem_map.mp hm
    rcases List.mem_append.mp hp with hp | hp
    · exact h2 (List.mem_map.mpr ⟨p, List.mem_append.mpr (.inl hp), hfp⟩)
    · rcases List.mem_cons.mp hp with rfl | hp
      · exact hfAB hfp
      · exact h2 (List.mem_map.mpr ⟨p, List.mem_append.mpr (.inr hp), hfp⟩)
  have hsetne : pySetEq
      ((pre ++ (⟨n, t, ttl, vs⟩ : Entry) :: post).map (fun p => entrySer (normEntry p)))
      ((pre ++ (⟨n, t, ttl', vs'⟩ : Entry) :: post).map (fun p => entrySer (normEntry p)))
      = false :=
    pySetEq_eq_false _ _ (entrySer (normEntry ⟨n, t, ttl, vs⟩))
      (List.mem_map.mpr ⟨⟨n, t, ttl, vs⟩, by simp, rfl⟩) hAnotinNew
  have hne' : pySetEq
      ((rrsetsXml ((pre ++ (⟨n, t, ttl, vs⟩ : Entry) :: post).map normEntry)).children.map
        Xml.serialize)
      ((rrsetsXml ((pre ++ (⟨n, t, ttl', vs'⟩ : Entry) :: post).map normEntry)).children.map
        Xml.serialize) = false := by
    rw [rrsetsXml_children, rrsetsXml_children, map_serialize_entries, map_serialize_entries]
    exact hsetne
  have hspec := generate_changeset_spec
    (rrsetsXml (pre ++ ⟨n, t, ttl, vs⟩ :: post)) (rrsetsXml (pre ++ ⟨n, t, ttl', vs'⟩ :: post))
    (rrsetsXml ((pre ++ (⟨n, t, ttl, vs⟩ : Entry) :: post).map normEntry))
    (rrsetsXml ((pre ++ (⟨n, t, ttl', vs'⟩ : Entry) :: post).map normEntry)) c
    (fun hh => hh.1 rfl)
    (normalize_rrs_rrsetsXml _) (normalize_rrs_rrsetsXml _) hne'
  rw [hspec]
  rw [rrsetsXml_children, rrsetsXml_children, map_serialize_entries, map_serialize_entries]
  have hcontA : ((pre ++ (⟨n, t, ttl', vs'⟩ : Entry) :: post).map
      (fun p => entrySer (normEntry p))).contains
      (Xml.serialize (entryXml (normEntry ⟨n, t, ttl, vs⟩))) = false := by
    rw [Bool.eq_false_iff]
    intro hc
    exact hAnotinNew ((containsIffMem _ _).mp hc)
  have hcontB : ((pre ++ (⟨n, t, ttl, vs⟩ : Entry) :: post).map
      (fun p => entrySer (normEntry p))).contains
      (Xml.serialize (entryXml (normEntry ⟨n, t, ttl', vs'⟩))) = false := by
    rw [Bool.eq_false_iff]
    intro hc
    exact hBnotinOld ((containsIffMem _ _).mp hc)
  have hdistO : ((pre ++ (⟨n, t, ttl, vs⟩ : Entry) :: post).map normEntry).map entryXml
      = (pre.map normEntry).map entryXml
        ++ entryXml (normEntry ⟨n, t, ttl, vs⟩) :: (post.map normEntry).map entryXml := by
    simp
  have hdistN : ((pre ++ (⟨n, t, ttl', vs'⟩ : Entry) :: post).map normEntry).map entryXml
      = (pre.map normEntry).map entryXml
        ++ entryXml (normEntry ⟨n, t, ttl', vs'⟩) :: (post.map normEntry).map entryXml := by
    simp
  rw [hdistO, hdistN]
  rw [filter_mid_drop _ pre post _
      (fun p hp => List.mem_map.mpr ⟨p, by simp [hp], rfl⟩)
      (fun p hp => List.mem_map.mpr ⟨p, by simp [hp], rfl⟩) hcontA,
    filter_mid_drop _ pre post _
      (fun p hp => List.mem_map.mpr ⟨p, by simp [hp], rfl⟩)
      (fun p hp => List.mem_map.mpr ⟨p, by simp [hp], rfl⟩) hcontB,
    filter_mid_keep _ pre post _
      (fun p hp => List.mem_map.mpr ⟨p, by simp [hp], rfl⟩)
      (fun p hp => List.mem_map.mpr ⟨p, by simp [hp], rfl⟩) hcontA,
    filter_mid_keep _ pre post _
      (fun p hp => List.mem_map.mpr ⟨p, by simp [hp], rfl⟩)
      (fun p hp => List.mem_map.mpr ⟨p, by simp [hp], rfl⟩) hcontB]
  simp [rrsetsXml, Xml.tag, Xml.text]

theorem generate_changeset_replace_check :
    generate_changeset (rrsetsXml [⟨"example.com.", "A", "60", ["192.0.2.1"]⟩])
        (rrsetsXml [⟨"example.com.", "A", "60", ["192.0.2.7"]⟩]) (some "foobar")
      = .ok (some (changeRequest "foobar"
              [mkDelete (entryXml (normEntry ⟨"example.com.", "A", "60", ["192.0.2.1"]⟩)),
               mkCreate (entryXml (normEntry ⟨"example.com.", "A", "60", ["192.0.2.7"]⟩))]),
            rrsetsXml [], rrsetsXml []) :=
  generate_changeset_replace [] [] "example.com." "A" "60" "60" ["192.0.2.1"] ["192.0.2.7"]
    (some "foobar") (by decide) (by decide) (by decide) (by decide)
    (.inr (by decide)) (by decide) (by decide)

/-- C3: the misshapen-input guard does not fire when only one input is
misshapen.  The source tests `rrsets_tag not in (old.tag, new.tag)`,
which raises `InvalidArgumentException` only when *neither* input carries
the container tag.  With `old` a well-formed empty container and `new` a
foreign `<Foo>` element, no exception is raised: the diff proceeds and
returns `None` (both sides serialise to the empty set), where the spec
requires `InvalidArgument` whenever either input is misshapen.  The
second conjunct shows the guard does fire when both inputs are
misshapen. -/
theorem generate_changeset_one_bad_tag_no_error :
    generate_changeset (.elem rrsetsTag none []) (.elem "Foo" none []) none
        = .ok (none, .elem rrsetsTag none [], .elem "Foo" none []) ∧
    generate_changeset (.elem "Foo" none []) (.elem "Bar" none []) none
        = .error .invalidArgument := by
  refine ⟨by decide, by decide⟩

/-- C7: pagination.  The first page request carries no cursor; when a
response's `IsTruncated` flag is `true` the next request carries the
cursor's name and type, plus the identifier when the response supplied
one; the loop stops on an un-truncated response, pages accumulate in
request order, and `merge_config` reassembles all pages' entries into one
`ResourceRecordSets` container in page order. -/
theorem fetch_two_pages_reassemble
    (conn : String → Xml) (zone nn nt ni : String) (page1 page2 : Xml)
    (tr1 nnE ntE niE tr2 : Xml) (es1 es2 : List Xml) (f : Nat)
    (hreq1 : conn (getstr zone none none none) = page1)
    (hreq2 : conn (getstr zone (some nn) (some nt) (some ni)) = page2)
    (htr1 : findChild isTruncatedTag page1 = some tr1) (htr1t : tr1.text = some "true")
    (hnn : findChild nextNameTag page1 = some nnE) (hnnt : nnE.text = some nn)
    (hnt : findChild nextTypeTag page1 = some ntE) (hntt : ntE.text = some nt)
    (hni : findChild nextIdentifierTag page1 = some niE) (hnit : niE.text = some ni)
    (htr2 : findChild isTruncatedTag page2 = some tr2) (htr2t : tr2.text = some "false")
    (hes1 : findallTag rrsetTag page1 = es1) (hes2 : findallTag rrsetTag page2 = es2) :
    getstr zone none none none
      = "/" ++ R53_API_VERSION ++ "/hostedzone/" ++ zone ++ "/rrset" ∧
    getstr zone (some nn) (some nt) (some ni)
      = "/" ++ R53_API_VERSION ++ "/hostedzone/" ++ zone ++ "/rrset"
        ++ "?name=" ++ nn ++ "&type=" ++ nt ++ "&identifier=" ++ ni ∧
    fetch_config conn zone (f + 2) = .ok [page1, page2] ∧
    merge_config [page1, page2] = .elem rrsetsTag none (es1 ++ es2) := by
  refine ⟨by simp [getstr], ?_, ?_, ?_⟩
  · apply String.ext
    simp [getstr, pyFmt, String.data_append, List.append_assoc]
  · simp [fetch_config, fetchLoop, hreq1, hreq2, htr1, htr1t, hnn, hnnt, hnt, hntt,
      hni, hnit, htr2, htr2t, Option.bind]
  · simp [merge_config, hes1, hes2]

theorem fetch_two_pages_reassemble_check :
    fetch_config
        (fun p => if p = getstr "ZONEID" none none none
          then Xml.elem "Resp" none
            [Xml.elem rrsetsTag none [Xml.elem rrsetTag (some "e1") []],
             Xml.elem isTruncatedTag (some "true") [],
             Xml.elem nextNameTag (some "n2.example.com") [],
             Xml.elem nextTypeTag (some "NS") [],
             Xml.elem nextIdentifierTag (some "50") []]
          else Xml.elem "Resp" none
            [Xml.elem rrsetsTag none [Xml.elem rrsetTag (some "e2") []],
             Xml.elem isTruncatedTag (some "false") []])
        "ZONEID" 2
      = .ok [Xml.elem "Resp" none
              [Xml.elem rrsetsTag none [Xml.elem rrsetTag (some "e1") []],
               Xml.elem isTruncatedTag (some "true") [],
               Xml.elem nextNameTag (some "n2.example.com") [],
               Xml.elem nextTypeTag (some "NS") [],
               Xml.elem nextIdentifierTag (some "50") []],
             Xml.elem "Resp" none
              [Xml.elem rrsetsTag none [Xml.elem rrsetTag (some "e2") []],
               Xml.elem isTruncatedTag (some "false") []]] ∧
    merge_config
        [Xml.elem "Resp" none
          [Xml.elem rrsetsTag none [Xml.elem rrsetTag (some "e1") []],
           Xml.elem isTruncatedTag (some "true") [],
           Xml.elem nextNameTag (some "n2.example.com") [],
           Xml.elem nextTypeTag (some "NS") [],
           Xml.elem nextIdentifierTag (some "50") []],
         Xml.elem "Resp" none
          [Xml.elem rrsetsTag none [Xml.elem rrsetTag (some "e2") []],
           Xml.elem isTruncatedTag (some "false") []]]
      = .elem rrsetsTag none
          [Xml.elem rrsetTag (some "e1") [], Xml.elem rrsetTag (some "e2") []] := by
  have h := fetch_two_pages_reassemble
    (fun p => if p = getstr "ZONEID" none none none
      then Xml.elem "Resp" none
        [Xml.elem rrsetsTag none [Xml.elem rrsetTag (some "e1") []],
         Xml.elem isTruncatedTag (some "true") [],
         Xml.elem nextNameTag (some "n2.example.com") [],
         Xml.elem nextTypeTag (some "NS") [],
         Xml.elem nextIdentifierTag (some "50") []]
      else Xml.elem "Resp" none
        [Xml.elem rrsetsTag none [Xml.elem rrsetTag (some "e2") []],
         Xml.elem isTruncatedTag (some "false") []])
    "ZONEID" "n2.example.com" "NS" "50"
    (Xml.elem "Resp" none
      [Xml.elem rrsetsTag none [Xml.elem rrsetTag (some "e1") []],
       Xml.elem isTruncatedTag (some "true") [],
       Xml.elem nextNameTag (some "n2.example.com") [],
       Xml.elem nextTypeTag (some "NS") [],
       Xml.elem nextIdentifierTag (some "50") []])
    (Xml.elem "Resp" none
      [Xml.elem rrsetsTag none [Xml.elem rrsetTag (some "e2") []],
       Xml.elem isTruncatedTag (some "false") []])
    (Xml.elem isTruncatedTag (some "true") [])
    (Xml.elem nextNameTag (some "n2.example.com") [])
    (Xml.elem nextTypeTag (some "NS") [])
    (Xml.elem nextIdentifierTag (some "50") [])
    (Xml.elem isTruncatedTag (some "false") [])
    [Xml.elem rrsetTag (some "e1") []] [Xml.elem rrsetTag (some "e2") []] 0
    (by decide) (by decide) (by decide) (by decide) (by decide) (by decide)
    (by decide) (by decide) (by decide) (by decide) (by decide) (by decide)
    (by decide) (by decide)
  exact ⟨h.2.2.1, h.2.2.2⟩

/-! ## Validator properties -/

/-- C8: validator boundaries and independence.  A batch with zero
`<Change>` elements always receives the empty-changeset violation (first
conjunct, for every batch that the character sum does not abort); a batch
of exactly 100 changes passes the count check while 101 fails with the
count-citing message; 1000 `ResourceRecord` elements pass while 1001
fail; 10000 summed value characters pass while 10001 fail; and a batch
violating the count, record and character limits at once receives all
three messages together. -/
theorem validate_changeset_boundaries :
    (∀ batch errs, validate_changeset batch = .ok errs →
      (findallTag changeTag batch).length = 0 → emptyChangesetMsg ∈ errs) ∧
    validate_changeset (changeRequest "c"
        (List.replicate 100 (mkDelete (entryXml ⟨"a", "A", "60", ["v"]⟩)))) = .ok [] ∧
    validate_changeset (changeRequest "c"
        (List.replicate 101 (mkDelete (entryXml ⟨"a", "A", "60", ["v"]⟩))))
      = .ok [changeCountMsg 101] ∧
    validate_changeset (changeRequest "c"
        [mkDelete (entryXml ⟨"a", "A", "60", List.replicate 1000 "v"⟩)]) = .ok [] ∧
    validate_changeset (changeRequest "c"
        [mkDelete (entryXml ⟨"a", "A", "60", List.replicate 1001 "v"⟩)])
      = .ok [rrCountMsg 1001] ∧
    validate_changeset (changeRequest "c"
        [mkDelete (entryXml ⟨"a", "A", "60",
          List.replicate 20 (String.mk (List.replicate 500 'v'))⟩)]) = .ok [] ∧
    validate_changeset (changeRequest "c"
        [mkDelete (entryXml ⟨"a", "A", "60",
          List.replicate 20 (String.mk (List.replicate 500 'v')) ++ ["v"]⟩)])
      = .ok [charCountMsg 10001] ∧
    validate_changeset (changeRequest "c"
        (List.replicate 101 (mkDelete
          (entryXml ⟨"a", "A", "60", List.replicate 10 (String.mk (List.replicate 10 'v'))⟩))))
      = .ok [changeCountMsg 101, rrCountMsg 1010, charCountMsg 10100] := by
  refine ⟨?_, by decide, by decide, by decide, by decide, by decide, by decide, by decide⟩
  intro batch errs h h0
  rcases htl : textLens (findallTag valueTag batch) with e | nc
  · rw [validate_changeset, htl] at h
    cases h
  · rw [validate_changeset, htl] at h
    have herrs := Except.ok.inj h
    rw [← herrs, h0]
    simp

theorem validate_changeset_boundaries_check :
    validate_changeset (changeRequest "c" []) = .ok [emptyChangesetMsg] ∧
    emptyChangesetMsg ∈ [emptyChangesetMsg] := by
  refine ⟨by decide, ?_⟩
  exact validate_changeset_boundaries.1 (changeRequest "c" []) [emptyChangesetMsg]
    (by decide) (by decide)

theorem textLens_isOk (vs : List Xml) (h : ∀ v ∈ vs, v.text.isSome) :
    ∃ n, textLens vs = .ok n := by
  induction vs with
  | nil => exact ⟨0, rfl⟩
  | cons v vs ih =>
    rcases hv : v.text with _ | t
    · have hs := h v (by simp)
      rw [hv] at hs
      cases hs
    · rcases ih (fun u hu => h u (by simp [hu])) with ⟨n, hn⟩
      exact ⟨t.length + n, by rw [textLens, hv, hn]⟩

/-- C9 (amended): `validate_changeset` returns a list of violations
without raising on every change-batch document all of whose `<Value>`
elements carry text — the empty string included, since `len('')` is `0`.
The function only reads the batch (the embedding is a pure function of
it), so the document is unchanged by the call.  A `<Value>` with *no*
text content — which is how lxml represents an empty value parsed from a
document — makes `len(value.text)` raise `TypeError`, so totality over
all batches fails (see the counterexample). -/
theorem validate_changeset_total_on_texted (batch : Xml)
    (h : ∀ v ∈ findallTag valueTag batch, v.text.isSome) :
    ∃ errs, validate_changeset batch = .ok errs := by
  rcases textLens_isOk (findallTag valueTag batch) h with ⟨n, hn⟩
  rcases hv : validate_changeset batch with e | errs
  · rw [validate_changeset, hn] at hv
    cases hv
  · exact ⟨errs, rfl⟩

theorem validate_changeset_total_on_texted_check :
    ∃ errs, validate_changeset (changeRequest "c"
      [mkDelete (.elem rrsetTag none
        [.elem rrsTag none [.elem rrTag none [.elem valueTag (some "") []]]])]) = .ok errs :=
  validate_changeset_total_on_texted _ (by decide)

/-- C9 (counterexample): a change batch holding an entry with a `<Value>`
element that has no text content — lxml's representation of an empty
value — makes `validate_changeset` raise `TypeError` (`len(None)`)
instead of returning a violation list. -/
theorem validate_changeset_none_text_raises :
    validate_changeset (changeRequest "c"
      [mkDelete (.elem rrsetTag none
        [.elem rrsTag none [.elem rrTag none [.elem valueTag none []]]])])
      = .error .typeError := by
  decide

/-- C10: `generate_changeset` does not preserve its inputs.  Whenever it
returns (rather than raising), both input containers have been
re-normalised in place; on the `None` fast path they are left exactly in
their normalised states, and on a non-`None` result every entry whose
serialised form is missing from the other side has been detached from
its container and re-parented under a `<Change>` of the returned
changeset, so each container retains only the entries whose serialised
form was common to both sides. -/
theorem generate_changeset_consumes_inputs (old new old' new' : Xml) (c : Option String)
    (r : Option Xml × Xml × Xml)
    (h : generate_changeset old new c = .ok r)
    (h1 : normalize_rrs old = .ok old') (h2 : normalize_rrs new = .ok new') :
    (r.1 = none → r.2.1 = old' ∧ r.2.2 = new') ∧
    (r.1.isSome →
      r.1 = some (changeRequest (c.getD default_comment)
        ((old'.children.filter (fun x =>
            !((new'.children.map Xml.serialize).contains (Xml.serialize x)))).map mkDelete
          ++ (new'.children.filter (fun x =>
            !((old'.children.map Xml.serialize).contains (Xml.serialize x)))).map mkCreate)) ∧
      r.2.1.children = old'.children.filter (fun x =>
        (new'.children.map Xml.serialize).contains (Xml.serialize x)) ∧
      r.2.2.children = new'.children.filter (fun x =>
        (old'.children.map Xml.serialize).contains (Xml.serialize x))) := by
  by_cases hc : old.tag ≠ rrsetsTag ∧ new.tag ≠ rrsetsTag
  · rw [generate_changeset, if_pos hc] at h
    cases h
  · by_cases hset : pySetEq (old'.children.map Xml.serialize)
        (new'.children.map Xml.serialize) = true
    · have hgen : generate_changeset old new c = .ok (none, old', new') := by
        simp [generate_changeset, hc, h1, h2, hset]
      rw [hgen] at h
      have hr := Except.ok.inj h
      subst hr
      exact ⟨fun _ => ⟨rfl, rfl⟩, fun hs => absurd hs (by simp)⟩
    · have hspec := generate_changeset_spec old new old' new' c hc h1 h2
        (Bool.eq_false_iff.mpr hset)
      rw [hspec] at h
      have hr := Except.ok.inj h
      subst hr
      exact ⟨fun h0 => absurd h0 (by simp), fun _ => ⟨rfl, rfl, rfl⟩⟩

theorem generate_changeset_consumes_inputs_check :
    ((some (changeRequest default_comment
        [mkDelete (entryXml ⟨"b.x.", "A", "1", ["w"]⟩)]) : Option Xml) = none →
      rrsetsXml [⟨"a.x.", "A", "1", ["v"]⟩] = rrsetsXml [⟨"a.x.", "A", "1", ["v"]⟩, ⟨"b.x.", "A", "1", ["w"]⟩] ∧
      rrsetsXml [⟨"a.x.", "A", "1", ["v"]⟩] = rrsetsXml [⟨"a.x.", "A", "1", ["v"]⟩]) ∧
    ((some (changeRequest default_comment
        [mkDelete (entryXml ⟨"b.x.", "A", "1", ["w"]⟩)]) : Option Xml).isSome →
      (some (changeRequest default_comment
        [mkDelete (entryXml ⟨"b.x.", "A", "1", ["w"]⟩)]) : Option Xml)
        = some (changeRequest (Option.getD none default_comment)
          (((rrsetsXml [⟨"a.x.", "A", "1", ["v"]⟩, ⟨"b.x.", "A", "1", ["w"]⟩]).children.filter
              (fun x => !(((rrsetsXml [⟨"a.x.", "A", "1", ["v"]⟩]).children.map
                Xml.serialize).contains (Xml.serialize x)))).map mkDelete
            ++ (((rrsetsXml [⟨"a.x.", "A", "1", ["v"]⟩]).children.filter
              (fun x => !(((rrsetsXml [⟨"a.x.", "A", "1", ["v"]⟩, ⟨"b.x.", "A", "1", ["w"]⟩]).children.map
                Xml.serialize).contains (Xml.serialize x)))).map mkCreate))) ∧
      (rrsetsXml [⟨"a.x.", "A", "1", ["v"]⟩]).children
        = (rrsetsXml [⟨"a.x.", "A", "1", ["v"]⟩, ⟨"b.x.", "A", "1", ["w"]⟩]).children.filter
            (fun x => (((rrsetsXml [⟨"a.x.", "A", "1", ["v"]⟩]).children.map
              Xml.serialize).contains (Xml.serialize x))) ∧
      (rrsetsXml [⟨"a.x.", "A", "1", ["v"]⟩]).children
        = (rrsetsXml [⟨"a.x.", "A", "1", ["v"]⟩]).children.filter
            (fun x => (((rrsetsXml [⟨"a.x.", "A", "1", ["v"]⟩, ⟨"b.x.", "A", "1", ["w"]⟩]).children.map
              Xml.serialize).contains (Xml.serialize x)))) :=
  generate_changeset_consumes_inputs
    (rrsetsXml [⟨"a.x.", "A", "1", ["v"]⟩, ⟨"b.x.", "A", "1", ["w"]⟩])
    (rrsetsXml [⟨"a.x.", "A", "1", ["v"]⟩])
    (rrsetsXml [⟨"a.x.", "A", "1", ["v"]⟩, ⟨"b.x.", "A", "1", ["w"]⟩])
    (rrsetsXml [⟨"a.x.", "A", "1", ["v"]⟩]) none
    (some (changeRequest default_comment [mkDelete (entryXml ⟨"b.x.", "A", "1", ["w"]⟩)]),
     rrsetsXml [⟨"a.x.", "A", "1", ["v"]⟩], rrsetsXml [⟨"a.x.", "A", "1", ["v"]⟩])
    (by decide) (by decide) (by decide)
